import Mathlib

/-!
Verification of the scipeds stratified aggregation query engine and its
statistical derivation layer.

The development shallowly embeds, over exact rational arithmetic and lists:

* the rate transforms of `scipeds/utils.py` (`forward_fold_transform`,
  `inverse_fold_transform`, `bounded_ratio_transform`,
  `inverse_bounded_ratio_transform`);
* the rate / effect-size derivations (`calculate_rel_rate`,
  `calculate_effect_size`) of `scipeds/utils.py`;
* the validated query-filter construction of `scipeds/data/queries.py`
  (`CompletionsQueryFilters`) and the rollup-value check of
  `scipeds/data/completions.py` (`_check_rollup_values`);
* the four-tier nested SQL aggregation emitted by
  `CompletionsQueryEngine._format_query` (`scipeds/data/completions.py`),
  modelled as a relational pipeline over a list of fact rows.

Machine floats of the source are modelled by `ℚ` together with an explicit
value type carrying the two infinities where the source produces them;
`NaN`-producing inputs are excluded by explicit hypotheses.
-/

/-- Value of a transform: a finite rational, or one of the two infinities
produced by numpy for extreme relative rates. -/
inductive XVal where
  | negInf : XVal
  | posInf : XVal
  | fin : ℚ → XVal
deriving DecidableEq, Repr

/-- `forward_fold_transform` of `scipeds/utils.py`: inputs `x ≤ 0` are sent to
`-inf`; otherwise `x ≤ 1` maps to `1 - 1/x` and `x > 1` maps to `x - 1`. -/
def forward_fold_transform (x : ℚ) : XVal :=
  if x ≤ 0 then XVal.negInf
  else if x ≤ 1 then XVal.fin (1 - 1 / x)
  else XVal.fin (x - 1)

/-- `inverse_fold_transform` of `scipeds/utils.py`: `y < 0` maps to
`-1/(y-1)`, otherwise `y + 1`. -/
def inverse_fold_transform (y : ℚ) : ℚ :=
  if y < 0 then -1 / (y - 1) else y + 1

/-- `bounded_ratio_transform` of `scipeds/utils.py`: `x ≥ 1` maps to
`1 - 1/x`, otherwise `x - 1`. -/
def bounded_ratio_transform (x : ℚ) : ℚ :=
  if 1 ≤ x then 1 - 1 / x else x - 1

/-- `inverse_bounded_ratio_transform` of `scipeds/utils.py`: `y ≤ 0` maps to
`y + 1`, `0 < y < 1` maps to `1/(1-y)`, and `y ≥ 1` maps to `+inf`. -/
def inverse_bounded_ratio_transform (y : ℚ) : XVal :=
  if y ≤ 0 then XVal.fin (y + 1)
  else if y < 1 then XVal.fin (1 / (1 - y))
  else XVal.posInf

/-- **C2.** Round-trip idempotence of the rate transforms: for `x > 0` the
fold transform produces a finite value that `inverse_fold_transform` maps back
to `x`, and for `x ≥ 0` the bounded-ratio transform round-trips through
`inverse_bounded_ratio_transform`. -/
theorem C2_rate_idempotence :
    (∀ x : ℚ, 0 < x →
      ∃ y : ℚ, forward_fold_transform x = XVal.fin y ∧ inverse_fold_transform y = x) ∧
    (∀ x : ℚ, 0 ≤ x →
      inverse_bounded_ratio_transform (bounded_ratio_transform x) = XVal.fin x) := by
  constructor
  · intro x hx
    have hx0 : x ≠ 0 := ne_of_gt hx
    unfold forward_fold_transform
    rw [if_neg (not_le.mpr hx)]
    by_cases hx1 : x ≤ 1
    · rw [if_pos hx1]
      refine ⟨1 - 1 / x, rfl, ?_⟩
      unfold inverse_fold_transform
      rcases lt_or_eq_of_le hx1 with hlt | heq
      · have hcond : 1 - 1 / x < 0 := by
          rw [sub_neg]
          rw [lt_div_iff₀ hx, one_mul]
          exact hlt
        rw [if_pos hcond]
        field_simp
      · subst heq
        norm_num
    · rw [if_neg hx1]
      refine ⟨x - 1, rfl, ?_⟩
      have hgt : 1 < x := not_le.mp hx1
      unfold inverse_fold_transform
      rw [if_neg (by linarith)]
      ring
  · intro x hx
    unfold bounded_ratio_transform
    by_cases h1 : 1 ≤ x
    · rw [if_pos h1]
      rcases lt_or_eq_of_le h1 with hlt | heq
      · have hx0 : (0 : ℚ) < x := by linarith
        have hlo : ¬ (1 - 1 / x ≤ 0) := by
          rw [not_le, sub_pos, div_lt_one hx0]
          exact hlt
        have hhi : 1 - 1 / x < 1 := by
          have : 0 < 1 / x := by positivity
          linarith
        unfold inverse_bounded_ratio_transform
        rw [if_neg hlo, if_pos hhi]
        have : 1 - (1 - 1 / x) = 1 / x := by ring
        rw [this, one_div_one_div]
      · rw [← heq]
        norm_num [inverse_bounded_ratio_transform]
    · rw [if_neg h1]
      have hlt : x < 1 := not_le.mp h1
      unfold inverse_bounded_ratio_transform
      rw [if_pos (by linarith)]
      norm_num

/-- Witness for C2 at the concrete input `x = 2`. -/
theorem C2_rate_idempotence_witness :
    (0 : ℚ) < 2 ∧
    (∃ y : ℚ, forward_fold_transform 2 = XVal.fin y ∧ inverse_fold_transform y = 2) ∧
    inverse_bounded_ratio_transform (bounded_ratio_transform 2) = XVal.fin 2 :=
  ⟨by norm_num, C2_rate_idempotence.1 2 (by norm_num),
    C2_rate_idempotence.2 2 (by norm_num)⟩

/-- **C10.** Implicit negative-input convention of the fold transform: every
input `x ≤ 0` — including strictly negative values outside the documented
relative-rate domain — is mapped to negative infinity rather than through the
piecewise formula `1 - 1/x`. -/
theorem C10_nonpositive_maps_to_negInf :
    ∀ x : ℚ, x ≤ 0 → forward_fold_transform x = XVal.negInf := by
  intro x hx
  unfold forward_fold_transform
  rw [if_pos hx]

/-- Witness for C10 at the strictly negative input `x = -2`. -/
theorem C10_nonpositive_maps_to_negInf_witness :
    (-2 : ℚ) ≤ 0 ∧ forward_fold_transform (-2) = XVal.negInf :=
  ⟨by norm_num, C10_nonpositive_maps_to_negInf (-2) (by norm_num)⟩

/-!
### Statistical derivation layer

`calculate_rel_rate` and `calculate_effect_size` of `scipeds/utils.py` operate
column-wise on a result frame.  A frame row is modelled as a record of the
numerator/denominator counts of the subgroup rate (`field_pct` / `rollup_pct`
in the callers) and the baseline rate (`uni_pct`), plus the grouping key used
by the effect-size median.  The `log2_rel_rate` column and the two z-score
columns (computed by the external `statsmodels` collaborator) are not needed
by any claim and are not modelled.
-/

/-- A raw result-frame row: the effect-size grouping key (`group_cols`) and
the four count columns feeding the subgroup rate (`field_pct`) and the
baseline rate (`uni_pct`). -/
structure CountsRow (κ : Type) where
  gkey : κ
  fieldNum : ℚ
  fieldDen : ℚ
  uniNum : ℚ
  uniDen : ℚ
deriving DecidableEq, Repr

/-- A row after `calculate_rel_rate`: the raw counts plus the derived rate
columns. -/
structure RatesRow (κ : Type) extends CountsRow κ where
  fieldPct : ℚ
  uniPct : ℚ
  relRate : ℚ
  foldRelRate : XVal
  boundedRelRate : ℚ
deriving DecidableEq, Repr

/-- `calculate_rel_rate` of `scipeds/utils.py`, row-wise: computes the
subgroup rate, the baseline rate, their ratio `rel_rate`, and its fold and
bounded reparameterizations. -/
def calculate_rel_rate {κ : Type} (r : CountsRow κ) : RatesRow κ :=
  let fieldPct := r.fieldNum / r.fieldDen
  let uniPct := r.uniNum / r.uniDen
  let relRate := fieldPct / uniPct
  { toCountsRow := r
    fieldPct := fieldPct
    uniPct := uniPct
    relRate := relRate
    foldRelRate := forward_fold_transform relRate
    boundedRelRate := bounded_ratio_transform relRate }

/-- The median of a list of rationals as computed by `pandas.Series.median`:
sort, take the middle element for odd length, the mean of the two middle
elements for even length. -/
def pandasMedian (l : List ℚ) : ℚ :=
  let s := l.mergeSort (fun a b => decide (a ≤ b))
  let n := l.length
  if n % 2 = 1 then s.getD (n / 2) 0
  else (s.getD (n / 2 - 1) 0 + s.getD (n / 2) 0) / 2

/-- A row after `calculate_effect_size`: the rate columns plus the effect-size
columns. -/
structure EffectRow (κ : Type) extends RatesRow κ where
  excessDegreesFromParity : ℚ
  medianRelRateUni : ℚ
  medianRelRateExpectedDegrees : ℚ
  excessDegreesFromMedianExpected : ℚ
deriving DecidableEq, Repr

/-- One row of `calculate_effect_size` of `scipeds/utils.py`: the parity gap
`field_num - uni_pct * field_den`, the median relative rate across all rows
sharing the row's grouping key, the counterfactual expected degrees at that
median rate clipped to the field total, and the gap from that expectation. -/
def effect_size_row {κ : Type} [DecidableEq κ] (rows : List (RatesRow κ)) (r : RatesRow κ) :
    EffectRow κ :=
  let med := pandasMedian ((rows.filter (fun s => s.gkey = r.gkey)).map (·.relRate))
  let expected := min (r.fieldDen * r.uniPct * med) r.fieldDen
  { toRatesRow := r
    excessDegreesFromParity := r.fieldNum - r.uniPct * r.fieldDen
    medianRelRateUni := med
    medianRelRateExpectedDegrees := expected
    excessDegreesFromMedianExpected := r.fieldNum - expected }

/-- `calculate_effect_size` of `scipeds/utils.py` over a whole result frame. -/
def calculate_effect_size {κ : Type} [DecidableEq κ] (rows : List (RatesRow κ)) :
    List (EffectRow κ) :=
  rows.map (effect_size_row rows)

/-- **C4, counterexample.** The parity property fails as stated on a
reachable row where both rates are zero: a zero-award fact row (allowed by
the fact-table invariant `award_count ≥ 0`, cf. the C6 analysis) gives a
result row with numerators `0` and denominators `5`.  Both rates are the
well-defined value `0` and equal, so the claim's premise holds, yet
`rel_rate` is `0/0` — `0` in the exact-rational model, `NaN` in the float
code, in either case not `1` — and the fold and bounded columns are likewise
not `0` (the model yields `-inf` and `-1`; the code yields `NaN`). -/
theorem C4_parity_counterexample :
    ((⟨(), 0, 5, 0, 5⟩ : CountsRow Unit).fieldNum /
        (⟨(), 0, 5, 0, 5⟩ : CountsRow Unit).fieldDen =
      (⟨(), 0, 5, 0, 5⟩ : CountsRow Unit).uniNum /
        (⟨(), 0, 5, 0, 5⟩ : CountsRow Unit).uniDen) ∧
    (⟨(), 0, 5, 0, 5⟩ : CountsRow Unit).fieldDen ≠ 0 ∧
    (⟨(), 0, 5, 0, 5⟩ : CountsRow Unit).uniDen ≠ 0 ∧
    (calculate_rel_rate (⟨(), 0, 5, 0, 5⟩ : CountsRow Unit)).relRate ≠ 1 ∧
    (calculate_rel_rate (⟨(), 0, 5, 0, 5⟩ : CountsRow Unit)).foldRelRate ≠ XVal.fin 0 ∧
    (calculate_rel_rate (⟨(), 0, 5, 0, 5⟩ : CountsRow Unit)).boundedRelRate ≠ 0 := by
  refine ⟨by norm_num, by norm_num, by norm_num, ?_, ?_, ?_⟩
  · norm_num [calculate_rel_rate]
  · have hfold : (calculate_rel_rate (⟨(), 0, 5, 0, 5⟩ : CountsRow Unit)).foldRelRate =
        XVal.negInf := by
      norm_num [calculate_rel_rate, forward_fold_transform]
    rw [hfold]
    decide
  · norm_num [calculate_rel_rate, bounded_ratio_transform]

/-- **C4, amended.** Parity property for nondegenerate rows: for a row whose
subgroup rate equals its baseline rate, with denominators nonzero and the
shared rate itself nonzero (equivalently the baseline numerator nonzero —
the condition the counterexample forces, and what the engine delivers when
award counts are positive, cf. C6), the derived columns satisfy
`rel_rate = 1`, `fold_rel_rate = 0`, `bounded_rel_rate = 0`, and
`excess_degrees_from_parity = 0`. -/
theorem C4_parity {κ : Type} [DecidableEq κ] (rows : List (RatesRow κ)) (r : CountsRow κ)
    (hfd : r.fieldDen ≠ 0) (hud : r.uniDen ≠ 0) (hun : r.uniNum ≠ 0)
    (heq : r.fieldNum / r.fieldDen = r.uniNum / r.uniDen) :
    (calculate_rel_rate r).relRate = 1 ∧
    (calculate_rel_rate r).foldRelRate = XVal.fin 0 ∧
    (calculate_rel_rate r).boundedRelRate = 0 ∧
    (effect_size_row rows (calculate_rel_rate r)).excessDegreesFromParity = 0 := by
  have hu : r.uniNum / r.uniDen ≠ 0 := div_ne_zero hun hud
  have hrel : (calculate_rel_rate r).relRate = 1 := by
    simp only [calculate_rel_rate, heq]
    exact div_self hu
  refine ⟨hrel, ?_, ?_, ?_⟩
  · simp only [calculate_rel_rate] at hrel ⊢
    rw [hrel]
    unfold forward_fold_transform
    norm_num
  · simp only [calculate_rel_rate] at hrel ⊢
    rw [hrel]
    unfold bounded_ratio_transform
    norm_num
  · simp only [effect_size_row, calculate_rel_rate]
    rw [← heq, div_mul_cancel₀ _ hfd]
    ring

/-- Witness for C4 at a concrete row with subgroup rate `1/2 = 2/4`. -/
theorem C4_parity_witness :
    ((⟨(), 1, 2, 2, 4⟩ : CountsRow Unit).fieldDen ≠ 0 ∧
      (⟨(), 1, 2, 2, 4⟩ : CountsRow Unit).fieldNum / (⟨(), 1, 2, 2, 4⟩ : CountsRow Unit).fieldDen =
        (⟨(), 1, 2, 2, 4⟩ : CountsRow Unit).uniNum / (⟨(), 1, 2, 2, 4⟩ : CountsRow Unit).uniDen) ∧
    (calculate_rel_rate (⟨(), 1, 2, 2, 4⟩ : CountsRow Unit)).relRate = 1 ∧
    (calculate_rel_rate (⟨(), 1, 2, 2, 4⟩ : CountsRow Unit)).foldRelRate = XVal.fin 0 ∧
    (calculate_rel_rate (⟨(), 1, 2, 2, 4⟩ : CountsRow Unit)).boundedRelRate = 0 ∧
    (effect_size_row [] (calculate_rel_rate (⟨(), 1, 2, 2, 4⟩ : CountsRow Unit))).excessDegreesFromParity
      = 0 :=
  ⟨⟨by norm_num, by norm_num⟩,
    C4_parity [] ⟨(), 1, 2, 2, 4⟩ (by norm_num) (by norm_num) (by norm_num) (by norm_num)⟩

/-- **C5.** Monotonic clipping: every output row of `calculate_effect_size`
has `median_rel_rate_expected_degrees` at most the field total denominator
`field_degrees_total`, because the expected-degrees column is clipped by a
row-wise minimum with that denominator. -/
theorem C5_monotonic_clipping {κ : Type} [DecidableEq κ] (rows : List (RatesRow κ))
    (e : EffectRow κ) (he : e ∈ calculate_effect_size rows) :
    e.medianRelRateExpectedDegrees ≤ e.fieldDen := by
  rcases List.mem_map.mp he with ⟨r, _, rfl⟩
  simp only [effect_size_row]
  exact min_le_right _ _

/-- Witness for C5 on a concrete one-row frame. -/
theorem C5_monotonic_clipping_witness :
    effect_size_row [calculate_rel_rate (⟨(), 3, 4, 1, 2⟩ : CountsRow Unit)]
        (calculate_rel_rate (⟨(), 3, 4, 1, 2⟩ : CountsRow Unit)) ∈
      calculate_effect_size [calculate_rel_rate (⟨(), 3, 4, 1, 2⟩ : CountsRow Unit)] ∧
    (effect_size_row [calculate_rel_rate (⟨(), 3, 4, 1, 2⟩ : CountsRow Unit)]
        (calculate_rel_rate (⟨(), 3, 4, 1, 2⟩ : CountsRow Unit))).medianRelRateExpectedDegrees ≤
      (effect_size_row [calculate_rel_rate (⟨(), 3, 4, 1, 2⟩ : CountsRow Unit)]
        (calculate_rel_rate (⟨(), 3, 4, 1, 2⟩ : CountsRow Unit))).fieldDen :=
  ⟨by simp [calculate_effect_size],
    C5_monotonic_clipping [calculate_rel_rate (⟨(), 3, 4, 1, 2⟩ : CountsRow Unit)] _
      (by simp [calculate_effect_size])⟩

/-!
### Query specification and validation

`CompletionsQueryFilters` of `scipeds/data/queries.py` is a validated record.
Pydantic field constraints (year bounds, majornum bounds) and the two model
validators (`check_year_range`, which raises on `start_year > end_year`, and
`check_year_range_and_race_ethnicities`, which emits non-fatal warnings) are
modelled as a constructor function returning either a typed error or the
constructed record together with the list of emitted warnings.
-/

/-- The `RaceEthn` enumeration of `scipeds/data/enums.py`. -/
inductive RaceEthn where
  | americanIndian | asian | blackOrAA | hispanic | hawaiianPI
  | nonres | twoOrMore | white | unknown
deriving DecidableEq, Repr

/-- The `AwardLevel` enumeration of `scipeds/data/enums.py`. -/
inductive AwardLevel where
  | lt12w | gt12wLt1y | lt1 | gt1Lt2 | associates | gt2Lt4 | bachelors
  | postbac | masters | postmas | doctorResearch | doctorProfessional
  | doctorOther | unknown
deriving DecidableEq, Repr

/-- `FALL_SURVEYS_START_YEAR` of `scipeds/constants.py`. -/
def FALL_SURVEYS_START_YEAR : ℤ := 1984

/-- `FALL_SURVEYS_END_YEAR` of `scipeds/constants.py`. -/
def FALL_SURVEYS_END_YEAR : ℤ := 2024

/-- The typed validation errors raised at filter-construction time. -/
inductive FilterError where
  | yearOutOfBounds
  | majornumOutOfBounds
  | rangeError
deriving DecidableEq, Repr

/-- The non-fatal diagnostic warnings emitted at filter-construction time:
the 2010/2011 schema-break warning and the pre-1995 race/ethnicity warning. -/
inductive FilterWarning where
  | schemaBreak
  | preRaceEthnData
deriving DecidableEq, Repr

/-- The validated `CompletionsQueryFilters` record. -/
structure CompletionsQueryFilters where
  start_year : ℤ
  end_year : ℤ
  race_ethns : List RaceEthn
  award_levels : List AwardLevel
  majornums : List ℤ
deriving DecidableEq, Repr

/-- `list(RaceEthn)`, the default for the `race_ethns` field. -/
def allRaceEthns : List RaceEthn :=
  [.americanIndian, .asian, .blackOrAA, .hispanic, .hawaiianPI,
   .nonres, .twoOrMore, .white, .unknown]

/-- `list(AwardLevel)`, the default for the `award_levels` field. -/
def allAwardLevels : List AwardLevel :=
  [.lt12w, .gt12wLt1y, .lt1, .gt1Lt2, .associates, .gt2Lt4, .bachelors,
   .postbac, .masters, .postmas, .doctorResearch, .doctorProfessional,
   .doctorOther, .unknown]

/-- Construction of `CompletionsQueryFilters` (`scipeds/data/queries.py`):
pydantic field bounds on the years (within `FALL_SURVEYS_START_YEAR ..
FALL_SURVEYS_END_YEAR`) and on the major numbers (in `{1, 2}`), the fatal
`check_year_range` model validator (`start_year > end_year` raises), and the
non-fatal warnings of `check_year_range_and_race_ethnicities`. -/
def mkCompletionsQueryFilters (start_year end_year : ℤ) (race_ethns : List RaceEthn)
    (award_levels : List AwardLevel) (majornums : List ℤ) :
    Except FilterError (CompletionsQueryFilters × List FilterWarning) :=
  if ¬ (FALL_SURVEYS_START_YEAR ≤ start_year ∧ start_year ≤ FALL_SURVEYS_END_YEAR) then
    .error .yearOutOfBounds
  else if ¬ (FALL_SURVEYS_START_YEAR ≤ end_year ∧ end_year ≤ FALL_SURVEYS_END_YEAR) then
    .error .yearOutOfBounds
  else if ¬ (∀ m ∈ majornums, 1 ≤ m ∧ m ≤ 2) then
    .error .majornumOutOfBounds
  else if end_year < start_year then
    .error .rangeError
  else
    .ok (⟨start_year, end_year, race_ethns, award_levels, majornums⟩,
      (if start_year ≤ 2010 ∧ 2011 ≤ end_year then [FilterWarning.schemaBreak] else []) ++
      (if (start_year < 1995 ∨ end_year < 1995) ∧ race_ethns ≠ [RaceEthn.unknown] then
        [FilterWarning.preRaceEthnData] else []))

/-- **C7.** Year-range validation: with the other fields at their defaults,
constructing filters with `start_year > end_year` (both years within the
dataset's valid span) fails synchronously with the range error, before any
query could execute; constructing with `start_year ≤ end_year` (both within
the span) succeeds. -/
theorem C7_year_range_validation :
    (∀ sy ey : ℤ, FALL_SURVEYS_START_YEAR ≤ sy → sy ≤ FALL_SURVEYS_END_YEAR →
      FALL_SURVEYS_START_YEAR ≤ ey → ey ≤ FALL_SURVEYS_END_YEAR → ey < sy →
      mkCompletionsQueryFilters sy ey allRaceEthns allAwardLevels [1, 2] =
        .error .rangeError) ∧
    (∀ sy ey : ℤ, FALL_SURVEYS_START_YEAR ≤ sy → sy ≤ FALL_SURVEYS_END_YEAR →
      FALL_SURVEYS_START_YEAR ≤ ey → ey ≤ FALL_SURVEYS_END_YEAR → sy ≤ ey →
      ∃ f w, mkCompletionsQueryFilters sy ey allRaceEthns allAwardLevels [1, 2] =
        .ok (f, w)) := by
  have hmaj : ¬¬ (∀ m ∈ ([1, 2] : List ℤ), 1 ≤ m ∧ m ≤ 2) := not_not_intro (by decide)
  constructor
  · intro sy ey h1 h2 h3 h4 hlt
    unfold mkCompletionsQueryFilters
    rw [if_neg (not_not_intro ⟨h1, h2⟩), if_neg (not_not_intro ⟨h3, h4⟩),
      if_neg hmaj, if_pos hlt]
  · intro sy ey h1 h2 h3 h4 hle
    unfold mkCompletionsQueryFilters
    rw [if_neg (not_not_intro ⟨h1, h2⟩), if_neg (not_not_intro ⟨h3, h4⟩),
      if_neg hmaj, if_neg (not_lt.mpr hle)]
    exact ⟨_, _, rfl⟩

/-- Witness for C7: the inverted range `(2012, 2010)` fails with the range
error and the ordered range `(2000, 2005)` constructs successfully. -/
theorem C7_year_range_validation_witness :
    ((2010 : ℤ) < 2012 ∧ (2000 : ℤ) ≤ 2005) ∧
    mkCompletionsQueryFilters 2012 2010 allRaceEthns allAwardLevels [1, 2] =
      .error .rangeError ∧
    ∃ f w, mkCompletionsQueryFilters 2000 2005 allRaceEthns allAwardLevels [1, 2] =
      .ok (f, w) :=
  ⟨⟨by norm_num, by norm_num⟩,
    C7_year_range_validation.1 2012 2010 (by decide) (by decide) (by decide)
      (by decide) (by norm_num),
    C7_year_range_validation.2 2000 2005 (by decide) (by decide) (by decide)
      (by decide) (by norm_num)⟩

/-- **C8.** Schema-break warning: every well-formed filter specification
(years in the valid span, `start_year ≤ end_year`) still constructs, and the
schema-break warning is emitted exactly when the year range spans the
2010/2011 coding change of award level and race/ethnicity. -/
theorem C8_schema_break_warning :
    ∀ sy ey : ℤ, FALL_SURVEYS_START_YEAR ≤ sy → sy ≤ FALL_SURVEYS_END_YEAR →
      FALL_SURVEYS_START_YEAR ≤ ey → ey ≤ FALL_SURVEYS_END_YEAR → sy ≤ ey →
      ∀ res : List RaceEthn, ∀ al : List AwardLevel,
      ∃ f w, mkCompletionsQueryFilters sy ey res al [1, 2] = .ok (f, w) ∧
        (FilterWarning.schemaBreak ∈ w ↔ (sy ≤ 2010 ∧ 2011 ≤ ey)) := by
  intro sy ey h1 h2 h3 h4 hle res al
  have hmaj : ¬¬ (∀ m ∈ ([1, 2] : List ℤ), 1 ≤ m ∧ m ≤ 2) := not_not_intro (by decide)
  unfold mkCompletionsQueryFilters
  rw [if_neg (not_not_intro ⟨h1, h2⟩), if_neg (not_not_intro ⟨h3, h4⟩),
    if_neg hmaj, if_neg (not_lt.mpr hle)]
  refine ⟨_, _, rfl, ?_⟩
  by_cases hs : sy ≤ 2010 ∧ 2011 ≤ ey <;>
    by_cases hr : (sy < 1995 ∨ ey < 1995) ∧ res ≠ [RaceEthn.unknown] <;>
      simp [hs, hr]

/-- Witness for C8: the range `(2005, 2015)` spans the schema break and warns;
the range `(2012, 2015)` does not span it and does not warn. -/
theorem C8_schema_break_warning_witness :
    ((2005 : ℤ) ≤ 2010 ∧ (2011 : ℤ) ≤ 2015) ∧
    (∃ f w, mkCompletionsQueryFilters 2005 2015 allRaceEthns allAwardLevels [1, 2] =
        .ok (f, w) ∧
      (FilterWarning.schemaBreak ∈ w ↔ ((2005 : ℤ) ≤ 2010 ∧ (2011 : ℤ) ≤ 2015))) ∧
    (∃ f w, mkCompletionsQueryFilters 2012 2015 allRaceEthns allAwardLevels [1, 2] =
        .ok (f, w) ∧
      (FilterWarning.schemaBreak ∈ w ↔ ((2012 : ℤ) ≤ 2010 ∧ (2011 : ℤ) ≤ 2015))) :=
  ⟨⟨by norm_num, by norm_num⟩,
    C8_schema_break_warning 2005 2015 (by decide) (by decide) (by decide)
      (by decide) (by norm_num) allRaceEthns allAwardLevels,
    C8_schema_break_warning 2012 2015 (by decide) (by decide) (by decide)
      (by decide) (by norm_num) allRaceEthns allAwardLevels⟩

/-!
### Aggregation query builder

The SQL emitted by `CompletionsQueryEngine._format_query`
(`scipeds/data/completions.py`) is a four-tier nested aggregation over the
fact table, modelled here as a relational pipeline over a list of fact rows of
an abstract row type `R`:

* `filtered` — the rows passing all `QueryFilters` predicates (year range,
  category membership, optional unitid allow-list), as one Boolean predicate;
* `field_totals` — `filtered`, optionally restricted by the rollup's taxonomy
  predicate, grouped by the field-total columns (abstracted as a key function
  `fieldKey`), summing `n_awards`; an empty field-column set (`fieldGrouped =
  false`) is a global aggregate producing exactly one row, keyed `none`;
* `group_totals` — `filtered` (no taxonomy restriction) grouped by the
  group-total columns (`groupKey`);
* `valid_combinations` — the join of `field_totals` and `group_totals`,
  `USING` the shared total-level columns when the total-column set is
  non-empty (`totalGrouped = true`), and a cross join otherwise; `tf` and
  `tg` project the total-level part out of a field key and a group key;
* `field_group_totals` — the taxonomy-restricted `filtered` grouped by the
  union of field and group columns, i.e. by the pair of keys;
* `totals` — `filtered` grouped by the total columns alone;
* the final `SELECT` keeps every valid combination, coalescing a missing
  finer-grained cell to `0`, and left-joins `totals`.

Grouping with `GROUP BY` is modelled by `aggBy`: one output entry per
distinct key of the input rows.  The institution-name decoration of the
university-scoped variants only renames output rows and is not modelled.
-/

/-- Configuration of one call to `_format_query`: the fact-row measure and
filter predicates plus the four column sets, abstracted as key functions.
`fieldGrouped` (resp. `totalGrouped`) records whether the field-total (resp.
total) column set is non-empty, matching the degenerate single-row aggregates
and cross joins the builder emits for empty column sets. -/
structure EngineSpec (R φ γ τ : Type) where
  n : R → ℕ
  filterPred : R → Bool
  taxPred : R → Bool
  fieldGrouped : Bool
  totalGrouped : Bool
  fieldKey : R → φ
  groupKey : R → γ
  totalKey : R → τ
  tf : φ → τ
  tg : γ → τ

/-- `SUM(n_awards)` over a list of fact rows. -/
def sumAwards {R φ γ τ : Type} (E : EngineSpec R φ γ τ) (rows : List R) : ℕ :=
  (rows.map E.n).sum

/-- `SELECT key, SUM(n_awards) FROM rows GROUP BY key`: one entry per
distinct key value. -/
def aggBy {R φ γ τ κ : Type} [DecidableEq κ] (E : EngineSpec R φ γ τ)
    (key : R → κ) (rows : List R) : List (κ × ℕ) :=
  ((rows.map key).dedup).map
    (fun k => (k, sumAwards E (rows.filter (fun r => decide (key r = k)))))

/-- The `filtered` CTE: fact rows passing all row-level filter predicates. -/
def filteredRows {R φ γ τ : Type} (E : EngineSpec R φ γ τ) (facts : List R) : List R :=
  facts.filter E.filterPred

/-- The taxonomy-restricted filtered rows feeding the field-level tiers. -/
def fieldRows {R φ γ τ : Type} (E : EngineSpec R φ γ τ) (facts : List R) : List R :=
  (filteredRows E facts).filter E.taxPred

/-- The field-total key of a row as it appears in output: the key itself when
the field-column set is non-empty, `none` otherwise. -/
def optFieldKey {R φ γ τ : Type} (E : EngineSpec R φ γ τ) (r : R) : Option φ :=
  if E.fieldGrouped then some (E.fieldKey r) else none

/-- The `field_totals` CTE: taxonomy-restricted filtered rows grouped by the
field-total columns; with no field-total columns, a single global aggregate
row (`COALESCE(SUM(..), 0)` over an empty group yields one row with `0`). -/
def fieldTotals {R φ γ τ : Type} [DecidableEq φ] (E : EngineSpec R φ γ τ)
    (facts : List R) : List (Option φ × ℕ) :=
  if E.fieldGrouped then
    (aggBy E E.fieldKey (fieldRows E facts)).map (fun p => (some p.1, p.2))
  else [(none, sumAwards E (fieldRows E facts))]

/-- The `group_totals` CTE: filtered rows (no taxonomy restriction) grouped
by the group-total columns. -/
def groupTotalsList {R φ γ τ : Type} [DecidableEq γ] (E : EngineSpec R φ γ τ)
    (facts : List R) : List (γ × ℕ) :=
  aggBy E E.groupKey (filteredRows E facts)

/-- The `totals` CTE: filtered rows grouped by the total columns; a single
global aggregate row when the total-column set is empty. -/
def totalsList {R φ γ τ : Type} [DecidableEq τ] (E : EngineSpec R φ γ τ)
    (facts : List R) : List (Option τ × ℕ) :=
  if E.totalGrouped then
    (aggBy E E.totalKey (filteredRows E facts)).map (fun p => (some p.1, p.2))
  else [(none, sumAwards E (filteredRows E facts))]

/-- The join condition of `valid_combinations`: equality of the shared
total-level columns when the total-column set is non-empty (`USING`), and the
unconditional cross join otherwise. -/
def comboMatch {R φ γ τ : Type} [DecidableEq τ] (E : EngineSpec R φ γ τ)
    (of : Option φ) (g : γ) : Bool :=
  if E.totalGrouped then
    match of with
    | some f => decide (E.tf f = E.tg g)
    | none => true
  else true

/-- The `field_group_totals` CTE: taxonomy-restricted filtered rows grouped
by the union of the field-total and group-total columns, i.e. by the pair of
keys. -/
def fieldGroupTotalsList {R φ γ τ : Type} [DecidableEq φ] [DecidableEq γ]
    (E : EngineSpec R φ γ τ) (facts : List R) : List ((Option φ × γ) × ℕ) :=
  aggBy E (fun r => (optFieldKey E r, E.groupKey r)) (fieldRows E facts)

/-- Key lookup modelling an equi-join against a keyed aggregate: the value of
the first entry with the given key, if any. -/
def lookupVal {κ : Type} [DecidableEq κ] (l : List (κ × ℕ)) (k : κ) : Option ℕ :=
  (l.find? (fun p => decide (p.1 = k))).map (fun p => p.2)

/-- The total-level key a valid combination exposes for the final join with
`totals` (projected from its field-total columns). -/
def comboTotalKey {R φ γ τ : Type} (E : EngineSpec R φ γ τ) (of : Option φ) : Option τ :=
  if E.totalGrouped then of.map E.tf else none

/-- One row of the final `SELECT`: the output key columns (field-total key
and group-total key), the coalesced finer-grained count, the two carried
subtotals, and the left-joined grand total. -/
structure ResultRow (φ γ : Type) where
  fkey : Option φ
  gkey : γ
  fieldGroupDegrees : ℕ
  fieldTotalDegrees : ℕ
  groupTotalDegrees : ℕ
  uniDegreesTotal : Option ℕ
deriving DecidableEq, Repr

/-- The output row built from one entry of `field_totals` and one of
`group_totals`: `COALESCE` of the `field_group_totals` cell to `0`, and the
left-join against `totals` on the combination's total-level key. -/
def mkResultRow {R φ γ τ : Type} [DecidableEq φ] [DecidableEq γ] [DecidableEq τ]
    (E : EngineSpec R φ γ τ) (facts : List R) (ft : Option φ × ℕ) (gt : γ × ℕ) :
    ResultRow φ γ :=
  { fkey := ft.1
    gkey := gt.1
    fieldGroupDegrees := (lookupVal (fieldGroupTotalsList E facts) (ft.1, gt.1)).getD 0
    fieldTotalDegrees := ft.2
    groupTotalDegrees := gt.2
    uniDegreesTotal := lookupVal (totalsList E facts) (comboTotalKey E ft.1) }

/-- The final query result: every matching combination of a `field_totals`
entry and a `group_totals` entry, assembled into an output row.  The final
`ORDER BY` only permutes rows and is not modelled; all verified properties
are permutation-invariant. -/
def queryResult {R φ γ τ : Type} [DecidableEq φ] [DecidableEq γ] [DecidableEq τ]
    (E : EngineSpec R φ γ τ) (facts : List R) : List (ResultRow φ γ) :=
  (fieldTotals E facts).flatMap (fun ft =>
    (groupTotalsList E facts).filterMap (fun gt =>
      if comboMatch E ft.1 gt.1 then some (mkResultRow E facts ft gt) else none))

/-!
### Helper lemmas about the aggregation pipeline
-/

theorem sumAwards_filter_cons {R φ γ τ : Type} (E : EngineSpec R φ γ τ) (p : R → Bool)
    (r : R) (rows : List R) :
    sumAwards E ((r :: rows).filter p) =
      (if p r then E.n r else 0) + sumAwards E (rows.filter p) := by
  by_cases h : p r <;> simp [h, sumAwards]

theorem sumAwards_filter_mono {R φ γ τ : Type} (E : EngineSpec R φ γ τ) (p q : R → Bool)
    (h : ∀ r, p r = true → q r = true) (rows : List R) :
    sumAwards E (rows.filter p) ≤ sumAwards E (rows.filter q) := by
  induction rows with
  | nil => simp
  | cons r rows ih =>
    rw [sumAwards_filter_cons, sumAwards_filter_cons]
    refine Nat.add_le_add ?_ ih
    by_cases hp : p r
    · rw [if_pos hp, if_pos (h r hp)]
    · simp [hp]

theorem sumAwards_filter_le {R φ γ τ : Type} (E : EngineSpec R φ γ τ) (p : R → Bool)
    (rows : List R) : sumAwards E (rows.filter p) ≤ sumAwards E rows := by
  have := sumAwards_filter_mono E p (fun _ => true) (fun _ _ => rfl) rows
  simpa using this

theorem le_sumAwards_of_mem {R φ γ τ : Type} (E : EngineSpec R φ γ τ) (rows : List R)
    (r : R) (hr : r ∈ rows) : E.n r ≤ sumAwards E rows :=
  List.single_le_sum (fun _ _ => Nat.zero_le _) _ (List.mem_map_of_mem E.n hr)

theorem aggBy_keys {R φ γ τ κ : Type} [DecidableEq κ] (E : EngineSpec R φ γ τ)
    (key : R → κ) (rows : List R) :
    (aggBy E key rows).map Prod.fst = (rows.map key).dedup := by
  simp [aggBy, List.map_map, Function.comp_def]

theorem lookupVal_cons {κ : Type} [DecidableEq κ] (p : κ × ℕ) (l : List (κ × ℕ)) (k : κ) :
    lookupVal (p :: l) k = if p.1 = k then some p.2 else lookupVal l k := by
  unfold lookupVal
  by_cases h : p.1 = k
  · rw [List.find?_cons_of_pos _ (by simpa using h), if_pos h]
    rfl
  · rw [List.find?_cons_of_neg _ (by simpa using h), if_neg h]

theorem lookupVal_map_key {κ : Type} [DecidableEq κ] (ks : List κ) (v : κ → ℕ) (k : κ) :
    lookupVal (ks.map (fun x => (x, v x))) k = if k ∈ ks then some (v k) else none := by
  induction ks with
  | nil => simp [lookupVal]
  | cons a ks ih =>
    rw [List.map_cons, lookupVal_cons, ih]
    by_cases h : a = k
    · subst h
      simp
    · have h' : ¬ k = a := fun heq => h heq.symm
      simp [h, h', List.mem_cons]

theorem lookupVal_aggBy {R φ γ τ κ : Type} [DecidableEq κ] (E : EngineSpec R φ γ τ)
    (key : R → κ) (rows : List R) (k : κ) :
    lookupVal (aggBy E key rows) k =
      if k ∈ (rows.map key).dedup then
        some (sumAwards E (rows.filter (fun r => decide (key r = k)))) else none :=
  lookupVal_map_key _ _ _

theorem lookupVal_aggBy_getD {R φ γ τ κ : Type} [DecidableEq κ] (E : EngineSpec R φ γ τ)
    (key : R → κ) (rows : List R) (k : κ) :
    (lookupVal (aggBy E key rows) k).getD 0 =
      sumAwards E (rows.filter (fun r => decide (key r = k))) := by
  rw [lookupVal_aggBy]
  by_cases h : k ∈ (rows.map key).dedup
  · rw [if_pos h]
    rfl
  · rw [if_neg h]
    have hnil : rows.filter (fun r => decide (key r = k)) = [] := by
      rw [List.filter_eq_nil_iff]
      intro r hr
      simp only [decide_eq_true_eq]
      intro hk
      exact h (List.mem_dedup.mpr (List.mem_map.mpr ⟨r, hr, hk⟩))
    rw [hnil]
    rfl

theorem countP_flatMap_sum {α β : Type} (l : List α) (f : α → List β) (p : β → Bool) :
    (l.flatMap f).countP p = (l.map (fun a => (f a).countP p)).sum := by
  induction l with
  | nil => rfl
  | cons a l ih => simp [List.flatMap_cons, List.countP_append, ih]

theorem countP_filterMap_eq {α β : Type} (g : α → Option β) (p : β → Bool) (l : List α) :
    (l.filterMap g).countP p = l.countP (fun a => ((g a).map p).getD false) := by
  induction l with
  | nil => rfl
  | cons a l ih =>
    cases hga : g a with
    | none => simp [List.filterMap_cons, hga, List.countP_cons, ih]
    | some b => simp [List.filterMap_cons, hga, List.countP_cons, ih]

theorem countP_congr_eq {α : Type} {l : List α} {p q : α → Bool}
    (h : ∀ a ∈ l, p a = q a) : l.countP p = l.countP q :=
  List.countP_congr (fun a ha => by rw [h a ha])

theorem countP_key_eq_one {κ β : Type} [DecidableEq κ] (l : List (κ × β))
    (hn : (l.map Prod.fst).Nodup) (k : κ) (hk : k ∈ l.map Prod.fst) :
    l.countP (fun p => decide (p.1 = k)) = 1 := by
  induction l with
  | nil => simp at hk
  | cons a l ih =>
    rw [List.map_cons] at hn hk
    rw [List.countP_cons]
    by_cases h : a.1 = k
    · have hzero : l.countP (fun p => decide (p.1 = k)) = 0 := by
        rw [List.countP_eq_zero]
        intro b hb
        simp only [decide_eq_true_eq]
        intro hbk
        exact (List.nodup_cons.mp hn).1 (h ▸ hbk ▸ List.mem_map_of_mem Prod.fst hb)
      simp [hzero, h]
    · have hk' : k ∈ l.map Prod.fst := by
        rcases List.mem_cons.mp hk with h1 | h1
        · exact absurd h1.symm h
        · exact h1
      simp [h, ih (List.nodup_cons.mp hn).2 hk']

theorem sum_map_ite_one {α : Type} (l : List α) (q : α → Prop) [DecidablePred q] :
    (l.map (fun a => if q a then 1 else 0)).sum = l.countP (fun a => decide (q a)) := by
  induction l with
  | nil => rfl
  | cons a l ih =>
    rw [List.map_cons, List.sum_cons, List.countP_cons, ih]
    by_cases h : q a <;> simp [h, Nat.add_comm]

theorem fieldTotals_keys {R φ γ τ : Type} [DecidableEq φ] (E : EngineSpec R φ γ τ)
    (facts : List R) :
    (fieldTotals E facts).map Prod.fst =
      if E.fieldGrouped then ((fieldRows E facts).map E.fieldKey).dedup.map some
      else [none] := by
  unfold fieldTotals
  by_cases h : E.fieldGrouped
  · rw [if_pos h, if_pos h, List.map_map,
      ← aggBy_keys E E.fieldKey (fieldRows E facts), List.map_map]
    rfl
  · rw [if_neg h, if_neg h]
    rfl

theorem fieldTotals_keys_nodup {R φ γ τ : Type} [DecidableEq φ] (E : EngineSpec R φ γ τ)
    (facts : List R) : ((fieldTotals E facts).map Prod.fst).Nodup := by
  rw [fieldTotals_keys]
  by_cases h : E.fieldGrouped
  · rw [if_pos h]
    exact (List.nodup_dedup _).map (Option.some_injective _)
  · rw [if_neg h]
    simp

theorem groupTotals_keys {R φ γ τ : Type} [DecidableEq γ] (E : EngineSpec R φ γ τ)
    (facts : List R) :
    (groupTotalsList E facts).map Prod.fst = ((filteredRows E facts).map E.groupKey).dedup :=
  aggBy_keys E E.groupKey (filteredRows E facts)

theorem groupTotals_keys_nodup {R φ γ τ : Type} [DecidableEq γ] (E : EngineSpec R φ γ τ)
    (facts : List R) : ((groupTotalsList E facts).map Prod.fst).Nodup := by
  rw [groupTotals_keys]
  exact List.nodup_dedup _

theorem mem_fieldTotals_keys {R φ γ τ : Type} [DecidableEq φ] (E : EngineSpec R φ γ τ)
    (facts : List R) (fk : Option φ)
    (h : ∃ r ∈ fieldRows E facts, optFieldKey E r = fk) :
    fk ∈ (fieldTotals E facts).map Prod.fst := by
  obtain ⟨r, hr, hkey⟩ := h
  rw [fieldTotals_keys]
  unfold optFieldKey at hkey
  by_cases hg : E.fieldGrouped
  · rw [if_pos hg] at hkey ⊢
    rw [← hkey]
    exact List.mem_map_of_mem some
      (List.mem_dedup.mpr (List.mem_map_of_mem E.fieldKey hr))
  · rw [if_neg hg] at hkey ⊢
    rw [← hkey]
    simp

theorem mem_groupTotals_keys {R φ γ τ : Type} [DecidableEq γ] (E : EngineSpec R φ γ τ)
    (facts : List R) (gk : γ)
    (h : ∃ r ∈ filteredRows E facts, E.groupKey r = gk) :
    gk ∈ (groupTotalsList E facts).map Prod.fst := by
  obtain ⟨r, hr, hkey⟩ := h
  rw [groupTotals_keys, ← hkey]
  exact List.mem_dedup.mpr (List.mem_map_of_mem E.groupKey hr)

theorem mem_queryResult {R φ γ τ : Type} [DecidableEq φ] [DecidableEq γ] [DecidableEq τ]
    (E : EngineSpec R φ γ τ) (facts : List R) (row : ResultRow φ γ) :
    row ∈ queryResult E facts ↔
      ∃ ft ∈ fieldTotals E facts, ∃ gt ∈ groupTotalsList E facts,
        comboMatch E ft.1 gt.1 = true ∧ row = mkResultRow E facts ft gt := by
  unfold queryResult
  rw [List.mem_flatMap]
  constructor
  · rintro ⟨ft, hft, hrow⟩
    rcases List.mem_filterMap.mp hrow with ⟨gt, hgt, hsome⟩
    by_cases hm : comboMatch E ft.1 gt.1
    · rw [if_pos hm] at hsome
      exact ⟨ft, hft, gt, hgt, hm, (Option.some_inj.mp hsome).symm⟩
    · rw [if_neg hm] at hsome
      cases hsome
  · rintro ⟨ft, hft, gt, hgt, hm, rfl⟩
    exact ⟨ft, hft, List.mem_filterMap.mpr ⟨gt, hgt, by rw [if_pos hm]⟩⟩

theorem lookupVal_map_some {κ : Type} [DecidableEq κ] (l : List (κ × ℕ)) (k : κ) :
    lookupVal (l.map (fun p => (some p.1, p.2))) (some k) = lookupVal l k := by
  induction l with
  | nil => rfl
  | cons a l ih =>
    rw [List.map_cons, lookupVal_cons, lookupVal_cons, ih]
    by_cases h : a.1 = k
    · rw [if_pos (by rw [h]), if_pos h]
    · rw [if_neg (by simpa using h), if_neg h]

theorem filter_flatMap {α β : Type} (l : List α) (f : α → List β) (q : β → Bool) :
    (l.flatMap f).filter q = l.flatMap (fun a => (f a).filter q) := by
  induction l with
  | nil => rfl
  | cons a l ih => simp [List.flatMap_cons, List.filter_append, ih]

theorem sum_map_flatMap {α β : Type} (l : List α) (f : α → List β) (h : β → ℕ) :
    ((l.flatMap f).map h).sum = (l.map (fun a => ((f a).map h).sum)).sum := by
  induction l with
  | nil => rfl
  | cons a l ih => simp [List.flatMap_cons, ih]

theorem sum_map_add {α : Type} (l : List α) (f g : α → ℕ) :
    (l.map (fun a => f a + g a)).sum = (l.map f).sum + (l.map g).sum := by
  induction l with
  | nil => rfl
  | cons a l ih =>
    simp only [List.map_cons, List.sum_cons, ih]
    omega

theorem sum_map_single {κ : Type} [DecidableEq κ] (ks : List κ) (hn : ks.Nodup)
    (x : κ) (hx : x ∈ ks) (c : ℕ) :
    (ks.map (fun k => if x = k then c else 0)).sum = c := by
  induction ks with
  | nil => simp at hx
  | cons a ks ih =>
    rw [List.map_cons, List.sum_cons]
    rw [List.nodup_cons] at hn
    by_cases h : x = a
    · rw [if_pos h]
      have hz : ∀ k ∈ ks, (if x = k then c else 0) = 0 := by
        intro k hk
        rw [if_neg]
        intro he
        exact hn.1 ((h.symm.trans he) ▸ hk)
      rw [List.map_congr_left hz]
      simp
    · rw [if_neg h, Nat.zero_add]
      exact ih hn.2 ((List.mem_cons.mp hx).resolve_left h)

theorem sum_map_ite_key {κ β : Type} [DecidableEq κ] (l : List (κ × β))
    (hn : (l.map Prod.fst).Nodup) (k : κ) (T : ℕ) :
    (l.map (fun p => if p.1 = k then T else 0)).sum =
      if k ∈ l.map Prod.fst then T else 0 := by
  induction l with
  | nil => simp
  | cons a l ih =>
    rw [List.map_cons, List.sum_cons, List.map_cons] at *
    rw [List.nodup_cons] at hn
    by_cases h : a.1 = k
    · rw [if_pos h]
      have hz : ∀ p ∈ l, (if p.1 = k then T else 0) = 0 := by
        intro p hp
        rw [if_neg]
        intro he
        exact hn.1 ((h ▸ he ▸ List.mem_map_of_mem Prod.fst hp) : a.1 ∈ l.map Prod.fst)
      rw [List.map_congr_left hz]
      have hmem : k ∈ a.1 :: l.map Prod.fst := h ▸ List.mem_cons_self a.1 _
      rw [if_pos hmem]
      simp
    · rw [if_neg h, Nat.zero_add, ih hn.2]
      have hiff : (k ∈ a.1 :: l.map Prod.fst) ↔ (k ∈ l.map Prod.fst) := by
        rw [List.mem_cons]
        exact or_iff_right (fun he => h he.symm)
      rw [if_congr hiff rfl rfl]

theorem sum_if_filter_keys {R φ γ τ κ : Type} [DecidableEq κ] (E : EngineSpec R φ γ τ)
    (key : R → κ) (rows : List R) (ks : List κ) (hn : ks.Nodup)
    (hcover : ∀ r ∈ rows, key r ∈ ks) (cond : κ → Bool) :
    (ks.map (fun k => if cond k then
        sumAwards E (rows.filter (fun r => decide (key r = k))) else 0)).sum =
    sumAwards E (rows.filter (fun r => cond (key r))) := by
  induction rows with
  | nil =>
    have hz : ∀ k ∈ ks, (if cond k then
        sumAwards E (List.filter (fun r => decide (key r = k)) []) else 0) = 0 := by
      intro k _
      by_cases hc : cond k <;> simp [hc, sumAwards]
    rw [List.map_congr_left hz]
    simp [sumAwards]
  | cons r rows ih =>
    have hcover' : ∀ x ∈ rows, key x ∈ ks := fun x hx => hcover x (List.mem_cons_of_mem r hx)
    have hkr : key r ∈ ks := hcover r (List.mem_cons_self r rows)
    have hsplit : ∀ k ∈ ks,
        (if cond k then
          sumAwards E ((r :: rows).filter (fun x => decide (key x = k))) else 0) =
        (if cond k then sumAwards E (rows.filter (fun x => decide (key x = k))) else 0) +
        (if key r = k then (if cond (key r) then E.n r else 0) else 0) := by
      intro k _
      rw [sumAwards_filter_cons]
      by_cases he : key r = k
      · subst he
        by_cases hc : cond (key r) <;> simp [hc] <;> omega
      · by_cases hc : cond k <;> simp [he, hc]
    rw [List.map_congr_left hsplit, sum_map_add, ih hcover',
      sum_map_single ks hn (key r) hkr _, sumAwards_filter_cons]
    omega

theorem inner_sum_eq {R φ γ τ : Type} [DecidableEq φ] [DecidableEq γ] [DecidableEq τ]
    (E : EngineSpec R φ γ τ) (facts : List R) (ft : Option φ × ℕ) (P : γ → Bool)
    (G : List (γ × ℕ)) :
    (((G.filterMap (fun gt => if comboMatch E ft.1 gt.1 then some (mkResultRow E facts ft gt)
          else none)).filter
        (fun row => decide (row.fkey = ft.1) && P row.gkey)).map
      (fun row => row.fieldGroupDegrees)).sum =
    (G.map (fun gt => if comboMatch E ft.1 gt.1 && P gt.1 then
        (lookupVal (fieldGroupTotalsList E facts) (ft.1, gt.1)).getD 0 else 0)).sum := by
  induction G with
  | nil => rfl
  | cons gt G ih =>
    simp only [List.filterMap_cons]
    by_cases hm : comboMatch E ft.1 gt.1
    · rw [if_pos hm]
      simp only [List.filter_cons]
      by_cases hp : P gt.1
      · have hcond : (decide ((mkResultRow E facts ft gt).fkey = ft.1) &&
            P (mkResultRow E facts ft gt).gkey) = true := by
          simp [mkResultRow, hp]
        rw [if_pos hcond]
        simp only [List.map_cons, List.sum_cons]
        rw [ih, if_pos (by simp [hm, hp])]
        rfl
      · have hcond : ¬ ((decide ((mkResultRow E facts ft gt).fkey = ft.1) &&
            P (mkResultRow E facts ft gt).gkey) = true) := by
          simp [mkResultRow, hp]
        rw [if_neg hcond]
        simp only [List.map_cons, List.sum_cons]
        rw [ih, if_neg (by simp [hp]), Nat.zero_add]
    · rw [if_neg hm]
      simp only [List.map_cons, List.sum_cons]
      rw [ih, if_neg (by simp [hm]), Nat.zero_add]

theorem sum_fg_result {R φ γ τ : Type} [DecidableEq φ] [DecidableEq γ] [DecidableEq τ]
    (E : EngineSpec R φ γ τ) (facts : List R) (fk : Option φ) (P : γ → Bool) :
    (((queryResult E facts).filter (fun row => decide (row.fkey = fk) && P row.gkey)).map
      (fun row => row.fieldGroupDegrees)).sum =
    if fk ∈ (fieldTotals E facts).map Prod.fst then
      sumAwards E ((fieldRows E facts).filter (fun r =>
        (comboMatch E fk (E.groupKey r) && P (E.groupKey r)) &&
          decide (optFieldKey E r = fk)))
    else 0 := by
  unfold queryResult
  rw [filter_flatMap, sum_map_flatMap]
  have hterm : ∀ ft ∈ fieldTotals E facts,
      ((((groupTotalsList E facts).filterMap
            (fun gt => if comboMatch E ft.1 gt.1 then some (mkResultRow E facts ft gt)
              else none)).filter
          (fun row => decide (row.fkey = fk) && P row.gkey)).map
        (fun row => row.fieldGroupDegrees)).sum =
      if ft.1 = fk then
        sumAwards E ((fieldRows E facts).filter (fun r =>
          (comboMatch E fk (E.groupKey r) && P (E.groupKey r)) &&
            decide (optFieldKey E r = fk)))
      else 0 := by
    intro ft hft
    by_cases hf : ft.1 = fk
    · rw [if_pos hf]
      subst hf
      rw [inner_sum_eq]
      unfold groupTotalsList aggBy
      rw [List.map_map]
      have hpoint : ∀ k ∈ (((filteredRows E facts).map E.groupKey).dedup),
          ((fun gt : γ × ℕ => if comboMatch E ft.1 gt.1 && P gt.1 then
              (lookupVal (fieldGroupTotalsList E facts) (ft.1, gt.1)).getD 0 else 0) ∘
            (fun k => (k, sumAwards E ((filteredRows E facts).filter
              (fun r => decide (E.groupKey r = k)))))) k =
          if comboMatch E ft.1 k && P k then
            sumAwards E (((fieldRows E facts).filter
              (fun r => decide (optFieldKey E r = ft.1))).filter
                (fun r => decide (E.groupKey r = k))) else 0 := by
        intro k _
        simp only [Function.comp_apply]
        unfold fieldGroupTotalsList
        rw [lookupVal_aggBy_getD]
        have hff : (fieldRows E facts).filter
            (fun r => decide ((optFieldKey E r, E.groupKey r) = (ft.1, k))) =
          ((fieldRows E facts).filter
            (fun r => decide (optFieldKey E r = ft.1))).filter
              (fun r => decide (E.groupKey r = k)) := by
          rw [List.filter_filter]
          apply List.filter_congr
          intro r _
          simp [Prod.ext_iff, Bool.and_comm]
        rw [hff]
      have hcov : ∀ r ∈ (fieldRows E facts).filter
          (fun r => decide (optFieldKey E r = ft.1)),
          E.groupKey r ∈ ((filteredRows E facts).map E.groupKey).dedup := by
        intro r hr
        exact List.mem_dedup.mpr (List.mem_map_of_mem E.groupKey
          (List.mem_of_mem_filter (List.mem_of_mem_filter hr)))
      rw [List.map_congr_left hpoint,
        sum_if_filter_keys E E.groupKey
          ((fieldRows E facts).filter (fun r => decide (optFieldKey E r = ft.1)))
          (((filteredRows E facts).map E.groupKey).dedup) (List.nodup_dedup _) hcov
          (fun k => comboMatch E ft.1 k && P k),
        List.filter_filter]
    · rw [if_neg hf]
      have hnil : (((groupTotalsList E facts).filterMap
            (fun gt => if comboMatch E ft.1 gt.1 then some (mkResultRow E facts ft gt)
              else none)).filter
          (fun row => decide (row.fkey = fk) && P row.gkey)) = [] := by
        rw [List.filter_eq_nil_iff]
        intro row hrow
        rcases List.mem_filterMap.mp hrow with ⟨gt, _, hsome⟩
        by_cases hm : comboMatch E ft.1 gt.1
        · rw [if_pos hm] at hsome
          obtain rfl := Option.some_inj.mp hsome
          simp [mkResultRow, hf]
        · rw [if_neg hm] at hsome
          cases hsome
      rw [hnil]
      rfl
  rw [List.map_congr_left hterm,
    sum_map_ite_key _ (fieldTotals_keys_nodup E facts) fk _]
  convert rfl

/-- **C1.** Zero-fill completeness: for any builder configuration (covering
every grouping, rollup, and filter set), every pair of a field-total key
present in the (taxonomy-restricted) filtered data and a group-total key
present in the filtered data whose shared total-level columns agree appears
in the final result exactly once; and when no fact row realizes the combined
finer-grained cell, the row's field-group count is coalesced to `0`. -/
theorem C1_zero_fill {R φ γ τ : Type} [DecidableEq φ] [DecidableEq γ] [DecidableEq τ]
    (E : EngineSpec R φ γ τ) (facts : List R) (fk : Option φ) (gk : γ)
    (hpf : ∃ r ∈ fieldRows E facts, optFieldKey E r = fk)
    (hpg : ∃ r ∈ filteredRows E facts, E.groupKey r = gk)
    (hmatch : comboMatch E fk gk = true) :
    (queryResult E facts).countP
        (fun row => decide (row.fkey = fk) && decide (row.gkey = gk)) = 1 ∧
    ∀ row ∈ queryResult E facts, row.fkey = fk → row.gkey = gk →
      (¬ ∃ r ∈ fieldRows E facts, optFieldKey E r = fk ∧ E.groupKey r = gk) →
      row.fieldGroupDegrees = 0 := by
  constructor
  · unfold queryResult
    rw [countP_flatMap_sum]
    have hinner : ∀ ft ∈ fieldTotals E facts,
        ((groupTotalsList E facts).filterMap
            (fun gt => if comboMatch E ft.1 gt.1 then some (mkResultRow E facts ft gt)
              else none)).countP
          (fun row => decide (row.fkey = fk) && decide (row.gkey = gk)) =
        if ft.1 = fk then 1 else 0 := by
      intro ft _
      rw [countP_filterMap_eq]
      by_cases hf : ft.1 = fk
      · rw [if_pos hf]
        have hcongr : ∀ gt ∈ groupTotalsList E facts,
            (((if comboMatch E ft.1 gt.1 then some (mkResultRow E facts ft gt)
                else none).map
              (fun row => decide (row.fkey = fk) && decide (row.gkey = gk))).getD false) =
            decide (gt.1 = gk) := by
          intro gt _
          by_cases hk : gt.1 = gk
          · have hm : comboMatch E ft.1 gt.1 = true := by rw [hf, hk]; exact hmatch
            rw [hm]
            simp [mkResultRow, hf, hk]
          · by_cases hm : comboMatch E ft.1 gt.1
            · rw [if_pos hm]
              simp [mkResultRow, hk]
            · rw [if_neg hm]
              simp [hk]
        rw [countP_congr_eq hcongr]
        exact countP_key_eq_one _ (groupTotals_keys_nodup E facts) gk
          (mem_groupTotals_keys E facts gk hpg)
      · rw [if_neg hf]
        rw [List.countP_eq_zero]
        intro gt _
        by_cases hm : comboMatch E ft.1 gt.1
        · rw [if_pos hm]
          simp [mkResultRow, hf]
        · rw [if_neg hm]
          simp
    rw [List.map_congr_left hinner, sum_map_ite_one]
    exact countP_key_eq_one _ (fieldTotals_keys_nodup E facts) fk
      (mem_fieldTotals_keys E facts fk hpf)
  · intro row hrow hf hg hno
    rcases (mem_queryResult E facts row).mp hrow with ⟨ft, _, gt, _, _, rfl⟩
    have hf' : ft.1 = fk := hf
    have hg' : gt.1 = gk := hg
    show (lookupVal (fieldGroupTotalsList E facts) (ft.1, gt.1)).getD 0 = 0
    rw [hf', hg']
    unfold fieldGroupTotalsList
    rw [lookupVal_aggBy_getD]
    have hnil : (fieldRows E facts).filter
        (fun r => decide ((optFieldKey E r, E.groupKey r) = (fk, gk))) = [] := by
      rw [List.filter_eq_nil_iff]
      intro r hr
      simp only [decide_eq_true_eq, Prod.mk.injEq, not_and]
      intro h1 h2
      exact hno ⟨r, hr, h1, h2⟩
    rw [hnil]
    rfl

/-- Concrete fact-row type for witness instantiations of the engine:
a gender column, a Boolean taxonomy classification, and an award count. -/
structure WRow where
  gender : Bool
  tax : Bool
  n : ℕ
deriving DecidableEq, Repr

/-- A concrete builder configuration in the shape of
`field_totals_by_grouping` (grouping by gender, no year column, no taxonomy
restriction): the taxonomy column is the field-total key and the whole-table
aggregate is the total. -/
def Wspec : EngineSpec WRow Bool Bool Unit where
  n := WRow.n
  filterPred := fun _ => true
  taxPred := fun _ => true
  fieldGrouped := true
  totalGrouped := false
  fieldKey := WRow.tax
  groupKey := WRow.gender
  totalKey := fun _ => ()
  tf := fun _ => ()
  tg := fun _ => ()

/-- Two fact rows whose taxonomy/gender combination `(true, true)` has no
fact row, exercising the zero-fill path. -/
def Wfacts : List WRow := [⟨false, true, 3⟩, ⟨true, false, 4⟩]

/-- Witness for C1 at the combination of field key `true` and group key
`true`, for which no fact row exists: it appears exactly once and its
field-group count is coalesced to `0`. -/
theorem C1_zero_fill_witness :
    (∃ r ∈ fieldRows Wspec Wfacts, optFieldKey Wspec r = some true) ∧
    (∃ r ∈ filteredRows Wspec Wfacts, Wspec.groupKey r = true) ∧
    comboMatch Wspec (some true) true = true ∧
    ((queryResult Wspec Wfacts).countP
        (fun row => decide (row.fkey = some true) && decide (row.gkey = true)) = 1 ∧
      ∀ row ∈ queryResult Wspec Wfacts, row.fkey = some true → row.gkey = true →
        (¬ ∃ r ∈ fieldRows Wspec Wfacts,
          optFieldKey Wspec r = some true ∧ Wspec.groupKey r = true) →
        row.fieldGroupDegrees = 0) :=
  ⟨by decide, by decide, by decide,
    C1_zero_fill Wspec Wfacts (some true) true (by decide) (by decide) (by decide)⟩

/-!
### Conservation across strata (intersectional vs race/ethnicity grouping)

`Grouping.grouping_columns` (`scipeds/data/enums.py`) maps the intersectional
grouping to the column pair `[race_ethnicity, gender]` and the race/ethnicity
grouping to `[race_ethnicity]`; all other builder inputs are identical.  The
two configurations below share every field except the group-total key, which
is either the pair of the non-gender group columns (`pk`, covering
race/ethnicity and any unitid/year columns) with the gender column (`gk`),
or the non-gender part alone.
-/

/-- The builder configuration under the intersectional grouping. -/
def intersectionalSpec {R φ π G' τ : Type} (n : R → ℕ) (fp tp : R → Bool)
    (fG tG : Bool) (fieldKey : R → φ) (totalKey : R → τ) (tf : φ → τ)
    (pk : R → π) (gk : R → G') (tg2 : π → τ) : EngineSpec R φ (π × G') τ where
  n := n
  filterPred := fp
  taxPred := tp
  fieldGrouped := fG
  totalGrouped := tG
  fieldKey := fieldKey
  groupKey := fun r => (pk r, gk r)
  totalKey := totalKey
  tf := tf
  tg := fun q => tg2 q.1

/-- The same builder configuration under the race/ethnicity grouping:
gender is dropped from the group-total key. -/
def withinRaceSpec {R φ π τ : Type} (n : R → ℕ) (fp tp : R → Bool)
    (fG tG : Bool) (fieldKey : R → φ) (totalKey : R → τ) (tf : φ → τ)
    (pk : R → π) (tg2 : π → τ) : EngineSpec R φ π τ where
  n := n
  filterPred := fp
  taxPred := tp
  fieldGrouped := fG
  totalGrouped := tG
  fieldKey := fieldKey
  groupKey := pk
  totalKey := totalKey
  tf := tf
  tg := tg2

/-- **C3.** Conservation across strata: under identical filters and rollup,
summing the intersectional grouping's field-group counts
(`field_degrees_intersectional`) over all genders for a fixed field-total key
and fixed non-gender group key equals the race/ethnicity grouping's
field-group count (`field_degrees_within_race_ethnicity`) for that same key
(expressed as the sum over the at most one matching result row, which is
unique by zero-fill completeness). -/
theorem C3_conservation {R φ π G' τ : Type} [DecidableEq φ] [DecidableEq π]
    [DecidableEq G'] [DecidableEq τ]
    (n : R → ℕ) (fp tp : R → Bool) (fG tG : Bool) (fieldKey : R → φ)
    (totalKey : R → τ) (tf : φ → τ) (pk : R → π) (gk : R → G') (tg2 : π → τ)
    (facts : List R) (fk : Option φ) (p : π) :
    (((queryResult (intersectionalSpec n fp tp fG tG fieldKey totalKey tf pk gk tg2)
          facts).filter
        (fun row => decide (row.fkey = fk) && decide (row.gkey.1 = p))).map
      (fun row => row.fieldGroupDegrees)).sum =
    (((queryResult (withinRaceSpec n fp tp fG tG fieldKey totalKey tf pk tg2)
          facts).filter
        (fun row => decide (row.fkey = fk) && decide (row.gkey = p))).map
      (fun row => row.fieldGroupDegrees)).sum := by
  rw [sum_fg_result (intersectionalSpec n fp tp fG tG fieldKey totalKey tf pk gk tg2)
      facts fk (fun q => decide (q.1 = p)),
    sum_fg_result (withinRaceSpec n fp tp fG tG fieldKey totalKey tf pk tg2)
      facts fk (fun q => decide (q = p))]
  rfl

/-!
### Baseline-division safety

The baseline rate of every derived-statistics call is
`uni_pct = uni_degrees_{grouping} / uni_degrees_total`, i.e. a result row's
group-total count over its grand total.  The fact-row invariant documented
for the store is only `award_count ≥ 0`, and a fact row with a zero award
count makes its group total `0` while the grand total stays positive — a
zero baseline rate with a nonzero baseline denominator.
-/

/-- Concrete fact-row type for the baseline-rate analysis: a gender column
and an award count. -/
structure C6Row where
  gender : Bool
  n : ℕ
deriving DecidableEq, Repr

/-- Builder configuration in the shape of `rollup_by_grouping` (grouping by
gender, no year column, every row in the rollup). -/
def C6spec : EngineSpec C6Row Unit Bool Unit where
  n := C6Row.n
  filterPred := fun _ => true
  taxPred := fun _ => true
  fieldGrouped := false
  totalGrouped := false
  fieldKey := fun _ => ()
  groupKey := C6Row.gender
  totalKey := fun _ => ()
  tf := fun _ => ()
  tg := fun _ => ()

/-- Facts with a zero-award row for one gender: allowed by the documented
fact-row invariant `award_count ≥ 0`. -/
def C6facts : List C6Row := [⟨false, 0⟩, ⟨true, 5⟩]

/-- **C6, counterexample.** The query result can contain a row whose baseline
numerator (`uni_degrees_within_gender`) is `0` while its baseline denominator
(`uni_degrees_total`) is `5 ≠ 0`; feeding those counts to
`calculate_rel_rate` makes the baseline rate `uni_pct` zero with a nonzero
baseline denominator, so `rel_rate` divides by a zero baseline rate in a case
the claim asserts impossible. -/
theorem C6_zero_baseline_counterexample :
    (∃ row ∈ queryResult C6spec C6facts,
      row.groupTotalDegrees = 0 ∧ row.uniDegreesTotal = some 5) ∧
    (calculate_rel_rate (⟨(), 0, 5, 0, 5⟩ : CountsRow Unit)).uniPct = 0 ∧
    (⟨(), 0, 5, 0, 5⟩ : CountsRow Unit).uniDen ≠ 0 := by
  refine ⟨⟨mkResultRow C6spec C6facts (none, 5) (false, 0), by decide, by decide⟩,
    ?_, by norm_num⟩
  norm_num [calculate_rel_rate]

theorem div_cast_ne_zero (g t : ℕ) (hg : 0 < g) (hle : g ≤ t) :
    ((g : ℚ) / (t : ℚ)) ≠ 0 := by
  have ht : 0 < t := lt_of_lt_of_le hg hle
  have hpos : (0 : ℚ) < (g : ℚ) / (t : ℚ) :=
    div_pos (by exact_mod_cast hg) (by exact_mod_cast ht)
  exact ne_of_gt hpos

/-- **C6, amended.** When every filtered fact row has a strictly positive
award count, every result row's baseline numerator is positive, its baseline
denominator is present (the `totals` left-join always finds its key) and at
least the numerator, and the baseline rate is nonzero — so the `rel_rate`
computation never divides by zero. -/
theorem C6_baseline_never_zero {R φ γ τ : Type} [DecidableEq φ] [DecidableEq γ]
    [DecidableEq τ] (E : EngineSpec R φ γ τ) (facts : List R)
    (hg : ∀ r, E.tg (E.groupKey r) = E.totalKey r)
    (hfg : E.totalGrouped = true → E.fieldGrouped = true)
    (hpos : ∀ r ∈ filteredRows E facts, 0 < E.n r) :
    ∀ row ∈ queryResult E facts,
      0 < row.groupTotalDegrees ∧
      ∃ t, row.uniDegreesTotal = some t ∧ row.groupTotalDegrees ≤ t ∧
        ((row.groupTotalDegrees : ℚ) / (t : ℚ) ≠ 0) := by
  intro row hrow
  rcases (mem_queryResult E facts row).mp hrow with ⟨ft, hft, gt, hgt, hm, rfl⟩
  unfold groupTotalsList aggBy at hgt
  rcases List.mem_map.mp hgt with ⟨k, hk, rfl⟩
  obtain ⟨r0, hr0, hr0k⟩ := List.mem_map.mp (List.mem_dedup.mp hk)
  have hr0mem : r0 ∈ (filteredRows E facts).filter (fun r => decide (E.groupKey r = k)) :=
    List.mem_filter.mpr ⟨hr0, by simp [hr0k]⟩
  have hgpos : 0 < sumAwards E ((filteredRows E facts).filter
      (fun r => decide (E.groupKey r = k))) :=
    lt_of_lt_of_le (hpos r0 hr0) (le_sumAwards_of_mem E _ r0 hr0mem)
  refine ⟨hgpos, ?_⟩
  by_cases htg : E.totalGrouped
  · have hfG : E.fieldGrouped = true := hfg htg
    obtain ⟨f, hff⟩ : ∃ f, ft.1 = some f := by
      unfold fieldTotals at hft
      rw [if_pos hfG] at hft
      rcases List.mem_map.mp hft with ⟨q, _, rfl⟩
      exact ⟨q.1, rfl⟩
    have htf : E.tf f = E.tg k := by
      unfold comboMatch at hm
      rw [if_pos htg, hff] at hm
      exact of_decide_eq_true hm
    have hkey : comboTotalKey E ft.1 = some (E.totalKey r0) := by
      unfold comboTotalKey
      rw [if_pos htg, hff]
      have : E.tf f = E.totalKey r0 := by
        rw [htf, ← hr0k, hg r0]
      simp [this]
    have hmemt : E.totalKey r0 ∈ ((filteredRows E facts).map E.totalKey).dedup :=
      List.mem_dedup.mpr (List.mem_map_of_mem E.totalKey hr0)
    have hlookup : lookupVal (totalsList E facts) (comboTotalKey E ft.1) =
        some (sumAwards E ((filteredRows E facts).filter
          (fun r => decide (E.totalKey r = E.totalKey r0)))) := by
      unfold totalsList
      rw [if_pos htg, hkey, lookupVal_map_some, lookupVal_aggBy, if_pos hmemt]
    have hle : sumAwards E ((filteredRows E facts).filter
          (fun r => decide (E.groupKey r = k))) ≤
        sumAwards E ((filteredRows E facts).filter
          (fun r => decide (E.totalKey r = E.totalKey r0))) := by
      apply sumAwards_filter_mono
      intro r hr
      simp only [decide_eq_true_eq] at hr ⊢
      calc E.totalKey r = E.tg (E.groupKey r) := (hg r).symm
        _ = E.tg k := by rw [hr]
        _ = E.tg (E.groupKey r0) := by rw [hr0k]
        _ = E.totalKey r0 := hg r0
    exact ⟨_, hlookup, hle, div_cast_ne_zero _ _ hgpos hle⟩
  · have hkey : comboTotalKey E ft.1 = none := by
      unfold comboTotalKey
      rw [if_neg htg]
    have hlookup : lookupVal (totalsList E facts) (comboTotalKey E ft.1) =
        some (sumAwards E (filteredRows E facts)) := by
      unfold totalsList
      rw [if_neg htg, hkey, lookupVal_cons, if_pos rfl]
    have hle : sumAwards E ((filteredRows E facts).filter
          (fun r => decide (E.groupKey r = k))) ≤
        sumAwards E (filteredRows E facts) :=
      sumAwards_filter_le E _ _
    exact ⟨_, hlookup, hle, div_cast_ne_zero _ _ hgpos hle⟩

/-- Facts for the amended C6 with strictly positive award counts. -/
def C6factsPos : List C6Row := [⟨false, 2⟩, ⟨true, 5⟩]

/-- Witness for the amended C6 at a concrete result row: baseline numerator
`2`, baseline denominator `7`, rate nonzero. -/
theorem C6_baseline_never_zero_witness :
    (∀ r ∈ filteredRows C6spec C6factsPos, 0 < C6spec.n r) ∧
    (mkResultRow C6spec C6factsPos (none, 7) (false, 2) ∈
      queryResult C6spec C6factsPos) ∧
    (0 < (mkResultRow C6spec C6factsPos (none, 7) (false, 2)).groupTotalDegrees ∧
      ∃ t, (mkResultRow C6spec C6factsPos (none, 7) (false, 2)).uniDegreesTotal = some t ∧
        (mkResultRow C6spec C6factsPos (none, 7) (false, 2)).groupTotalDegrees ≤ t ∧
        (((mkResultRow C6spec C6factsPos (none, 7) (false, 2)).groupTotalDegrees : ℚ) /
          (t : ℚ) ≠ 0)) :=
  ⟨by decide, by decide,
    C6_baseline_never_zero C6spec C6factsPos (fun r => rfl)
      (fun h => absurd h (by decide)) (by decide) _ (by decide)⟩

/-!
### Non-fatal rollup-value check
-/

/-- A diagnostic warning of `_check_rollup_values`: the number of requested
taxonomy values missing from the live classification table, and the first at
most 3 of them as quoted in the message. -/
structure MissingWarning (V : Type) where
  nMissing : ℕ
  firstMissing : List V
deriving DecidableEq, Repr

/-- `CompletionsQueryEngine._check_rollup_values`
(`scipeds/data/completions.py`): the requested values absent from the
taxonomy column's distinct values; when any are missing a warning carries
their count and the first at most 3 of them, otherwise no warning. -/
def check_rollup_values {V : Type} [DecidableEq V]
    (uniqueValues taxonomy_values : List V) : Option (MissingWarning V) :=
  let missing := taxonomy_values.filter (fun v => decide (v ∉ uniqueValues))
  if 0 < missing.length then some ⟨missing.length, missing.take 3⟩ else none

/-- `CompletionsQueryEngine.rollup_by_grouping`, reduced to the
claim-relevant control flow: run the rollup-value check for its possible
warning, then build and execute the query unconditionally. -/
def rollup_by_grouping {R φ γ τ V : Type} [DecidableEq φ] [DecidableEq γ]
    [DecidableEq τ] [DecidableEq V] (E : EngineSpec R φ γ τ) (facts : List R)
    (uniqueValues taxonomy_values : List V) :
    Option (MissingWarning V) × List (ResultRow φ γ) :=
  (check_rollup_values uniqueValues taxonomy_values, queryResult E facts)

/-- **C9.** Missing taxonomy values are non-fatal: the query is always built
and executed; when some requested values are missing from the live
classification table the check emits a warning naming their total count and
at most 3 of them; when none are missing no warning is emitted. -/
theorem C9_missing_taxonomy_nonfatal {R φ γ τ V : Type} [DecidableEq φ]
    [DecidableEq γ] [DecidableEq τ] [DecidableEq V] (E : EngineSpec R φ γ τ)
    (facts : List R) (uniqueValues taxonomy_values : List V) :
    (rollup_by_grouping E facts uniqueValues taxonomy_values).2 =
      queryResult E facts ∧
    (taxonomy_values.filter (fun v => decide (v ∉ uniqueValues)) = [] →
      (rollup_by_grouping E facts uniqueValues taxonomy_values).1 = none) ∧
    (taxonomy_values.filter (fun v => decide (v ∉ uniqueValues)) ≠ [] →
      (rollup_by_grouping E facts uniqueValues taxonomy_values).1 =
        some ⟨(taxonomy_values.filter (fun v => decide (v ∉ uniqueValues))).length,
          (taxonomy_values.filter (fun v => decide (v ∉ uniqueValues))).take 3⟩ ∧
      ((taxonomy_values.filter (fun v => decide (v ∉ uniqueValues))).take 3).length ≤ 3) := by
  refine ⟨rfl, ?_, ?_⟩
  · intro hnil
    unfold rollup_by_grouping check_rollup_values
    rw [hnil]
    rfl
  · intro hne
    have hpos : 0 < (taxonomy_values.filter (fun v => decide (v ∉ uniqueValues))).length :=
      List.length_pos.mpr hne
    constructor
    · unfold rollup_by_grouping check_rollup_values
      simp only [if_pos hpos]
    · calc ((taxonomy_values.filter (fun v => decide (v ∉ uniqueValues))).take 3).length
          ≤ 3 := List.length_take_le 3 _

/-- Witness for C9: with distinct values `[1, 2]`, requesting `[1, 3, 4, 5, 6]`
warns with count `4` and sample `[3, 4, 5]` and still executes; requesting
`[1]` emits no warning. -/
theorem C9_missing_taxonomy_nonfatal_witness :
    (rollup_by_grouping C6spec C6facts [1, 2] [1, 3, 4, 5, 6]).2 =
      queryResult C6spec C6facts ∧
    (rollup_by_grouping C6spec C6facts [1, 2] [1, 3, 4, 5, 6]).1 =
      some ⟨([1, 3, 4, 5, 6].filter (fun v => decide (v ∉ ([1, 2] : List ℕ)))).length,
        ([1, 3, 4, 5, 6].filter (fun v => decide (v ∉ ([1, 2] : List ℕ)))).take 3⟩ ∧
    (rollup_by_grouping C6spec C6facts [1, 2] [1]).1 = none :=
  ⟨(C9_missing_taxonomy_nonfatal C6spec C6facts [1, 2] [1, 3, 4, 5, 6]).1,
    ((C9_missing_taxonomy_nonfatal C6spec C6facts [1, 2] [1, 3, 4, 5, 6]).2.2
      (by decide)).1,
    (C9_missing_taxonomy_nonfatal C6spec C6facts [1, 2] [1]).2.1 (by decide)⟩
